import Mathlib

/-!
Shallow embedding of the PDF-to-HTML conversion service in `src/main.py`
(functions `sanitize_text`, `optimize_image`, `process_page`, `pdf_to_html`).
Python strings are modelled as `List Char`; floating-point page coordinates
are modelled as exact rationals; pixel dimensions are naturals, with Python
`int(x)` on a nonnegative exact value modelled by natural floor division.
The HTML fragments built by string interpolation are modelled structurally:
a node record carries exactly the values the code interpolates into the
corresponding tag's inline style, so the string output is an injective
rendering of the structures below.
-/

/-- ASCII whitespace characters matched by the Python regex class used in
`sanitize_text` (space, tab, newline, carriage return, vertical tab, form
feed). -/
def isPySpace (c : Char) : Bool :=
  c = ' ' || c = '\t' || c = '\n' || c = '\r' || c = '\x0b' || c = '\x0c'

/-- Worker for the whitespace-collapsing regex substitution in
`sanitize_text`: each maximal run of whitespace becomes one space. The flag
`prev` records whether the previous character belonged to a run already
replaced by a space. -/
def squeezeWs (prev : Bool) : List Char → List Char
  | [] => []
  | c :: cs =>
    if isPySpace c then
      if prev then squeezeWs true cs else ' ' :: squeezeWs true cs
    else c :: squeezeWs false cs

/-- Whitespace collapsing step of `sanitize_text`. -/
def collapseWs (s : List Char) : List Char := squeezeWs false s

/-- Python `str.replace` for a single-character needle, as used three times
in `sanitize_text`. -/
def replaceChar (t : Char) (r : List Char) : List Char → List Char
  | [] => []
  | c :: cs => (if c = t then r else [c]) ++ replaceChar t r cs

/-- Replacement text for the ampersand. -/
def ampEsc : List Char := ['&', 'a', 'm', 'p', ';']

/-- Replacement text for the less-than sign. -/
def ltEsc : List Char := ['&', 'l', 't', ';']

/-- Replacement text for the greater-than sign. -/
def gtEsc : List Char := ['&', 'g', 't', ';']

/-- Chained `replace` calls of `sanitize_text`, escaping the ampersand
first, then the angle brackets. -/
def escapeHtml (s : List Char) : List Char :=
  replaceChar '>' gtEsc (replaceChar '<' ltEsc (replaceChar '&' ampEsc s))

/-- Python `str.lstrip()` for whitespace. -/
def lstripWs (s : List Char) : List Char := s.dropWhile isPySpace

/-- Python `str.rstrip()` for whitespace. -/
def rstripWs (s : List Char) : List Char := (s.reverse.dropWhile isPySpace).reverse

/-- Python `str.strip()` for whitespace. -/
def stripWs (s : List Char) : List Char := rstripWs (lstripWs s)

/-- Function `sanitize_text` of `src/main.py`: collapse whitespace runs to
one space, escape the HTML metacharacters, strip leading and trailing
whitespace. -/
def sanitize_text (s : List Char) : List Char :=
  stripWs (escapeHtml (collapseWs s))

/-- Font scale constant `FONT_SCALE_FACTOR = 0.85` of `src/main.py`. -/
def FONT_SCALE_FACTOR : ℚ := 85 / 100

/-- Letter-spacing toggle `ENABLE_TEXT_SPACING = True` of `src/main.py`. -/
def ENABLE_TEXT_SPACING : Bool := true

/-- Colour of a text span as `process_page` receives it: either an rgb tuple
(of which the first three components are used) or a single grayscale
integer. -/
inductive SpanColor where
  | rgb (r g b : Nat)
  | gray (v : Nat)
deriving DecidableEq

/-- Colour resolution in `process_page`: a tuple gives its first three
components, a grayscale value is tripled into an rgb hex colour. -/
def resolveColor : SpanColor → Nat × Nat × Nat
  | .rgb r g b => (r, g, b)
  | .gray v => (v, v, v)

/-- One span of the dictionary returned by the text extraction, with the
fields `process_page` reads: text, origin, font size, colour, flags. -/
structure TextSpan where
  text : List Char
  originX : ℚ
  originY : ℚ
  size : ℚ
  color : SpanColor
  flags : Nat
deriving DecidableEq

/-- One line of a text block: a list of spans. -/
structure TextLine where
  spans : List TextSpan
deriving DecidableEq

/-- One block of the extracted page dictionary: `btype = 0` is a text block
carrying lines of spans, `btype = 1` is an image block carrying a bounding
box. -/
structure Block where
  btype : Nat
  lines : List TextLine
  bbox : Option (ℚ × ℚ × ℚ × ℚ)
deriving DecidableEq

/-- One emitted text div: the numeric values `process_page` interpolates
into the node's inline style, plus its text content. -/
structure TextNode where
  left : ℚ
  top : ℚ
  fontSize : ℚ
  color : Nat × Nat × Nat
  bold : Bool
  letterSpacing : Bool
  text : List Char
deriving DecidableEq

/-- Per-span body of the text loop in `process_page`: sanitize the text,
skip the span when the result is empty, otherwise emit a node positioned at
`left = x0`, `top = y0` with the scaled font size, resolved colour, and the
bold flag taken from bit 4 of the span flags. -/
def renderSpan (s : TextSpan) : Option TextNode :=
  if sanitize_text s.text = [] then none
  else
    some { left := s.originX, top := s.originY,
           fontSize := s.size * FONT_SCALE_FACTOR,
           color := resolveColor s.color,
           bold := Nat.testBit s.flags 4,
           letterSpacing := ENABLE_TEXT_SPACING,
           text := sanitize_text s.text }

/-- Text layer of `process_page`: blocks of type 0, their lines, their
spans, in source order, dropping spans whose sanitized text is empty. -/
def textNodes (blocks : List Block) : List TextNode :=
  blocks.flatMap (fun b =>
    if b.btype = 0 then
      b.lines.flatMap (fun ln => ln.spans.filterMap renderSpan)
    else [])

/-- Fields of a pixmap that `process_page` and `optimize_image` consult;
`encodeFails` marks pixmaps whose decode or encode raises, which is the
exception path of `optimize_image`. -/
structure Pixmap where
  width : Nat
  height : Nat
  n : Nat
  encodeFails : Bool
deriving DecidableEq

/-- One entry of the page's image list together with the outcome of the
extraction calls: `valid` models the entry having at least three fields,
`extractFails` models the extraction raising (the continue path). -/
structure ImageInfo where
  valid : Bool
  extractFails : Bool
  pixmap : Pixmap
deriving DecidableEq

/-- Output format chosen by `optimize_image`. -/
inductive ImgFormat where
  | jpeg
  | png
deriving DecidableEq

/-- Result of a successful `optimize_image` call: the data-URL format tag
and the final pixel dimensions of the encoded image. -/
structure DataUrl where
  fmt : ImgFormat
  width : Nat
  height : Nat
deriving DecidableEq

/-- Fuel-driven base-2 logarithm on naturals, written structurally so that
it evaluates by kernel reduction; `fuel = n` steps always suffice. -/
def log2Fuel : Nat → Nat → Nat
  | 0, _ => 0
  | fuel + 1, n => if 2 ≤ n then log2Fuel fuel (n / 2) + 1 else 0

/-- Floor of the base-2 logarithm of a positive natural. -/
def natLog2 (n : Nat) : Nat := log2Fuel n n

/-- Floor of the base-2 logarithm of the positive rational `a / b`. -/
def floorLog2 (a b : Nat) : Int :=
  let e0 : Int := (natLog2 a : Int) - (natLog2 b : Int)
  if b <<< e0.toNat ≤ a <<< (-e0).toNat then e0 else e0 - 1

/-- Nearest-integer division with ties broken to the even quotient, the
rounding rule of IEEE-754 round-to-nearest-even applied to a significand. -/
def rne (num den : Nat) : Nat :=
  if 2 * (num % den) < den then num / den
  else if den < 2 * (num % den) then num / den + 1
  else if num / den % 2 = 0 then num / den else num / den + 1

/-- IEEE-754 binary64 rounding (round to nearest, ties to even) of the
positive rational `a / b`: the fraction is scaled by `2 ^ (52 - e)` so it
falls in the significand range `[2 ^ 52, 2 ^ 53)` and rounded to the
nearest integer `n`, giving the rounded value `n * 2 ^ (e - 52)`. CPython
computes `1200 / max_dimension` and `width * scale_factor` in binary64 with
exactly this rounding: the operands are exact in binary64, the values lie
in the normal range, and each operation rounds once. -/
def rnPair (a b : Nat) : Nat × Int :=
  let e := floorLog2 a b
  (rne (a <<< (52 - e).toNat) (b <<< (e - 52).toNat), e)

/-- Exact rational value of the binary64 rounding of `a / b`. -/
def rnVal (a b : Nat) : ℚ :=
  ((rnPair a b).1 : ℚ) * (2 : ℚ) ^ ((rnPair a b).2 - 52)

/-- Python `int()` truncation of the positive binary64 value
`n * 2 ^ (e - 52)`. -/
def pyTrunc (n : Nat) (e : Int) : Nat :=
  (n <<< (e - 52).toNat) >>> (52 - e).toNat

/-- One side of the downsampling arithmetic of `optimize_image`, in the
program's binary64 semantics: `scale_factor = 1200 / max_dimension` rounded
to binary64, then `side * scale_factor` rounded to binary64, then `int`
truncation. The second rounding's input `side * rnVal 1200 maxDimension` is
passed as the exact fraction `(side * n) * 2 ^ (e - 52)`. -/
def scaledSide (side maxDimension : Nat) : Nat :=
  let s := rnPair 1200 maxDimension
  let t := rnPair ((side * s.1) <<< (s.2 - 52).toNat) (1 <<< (52 - s.2).toNat)
  pyTrunc t.1 t.2

/-- Downsampling step of `optimize_image`: when the longer side exceeds
1200 the code multiplies both sides by the binary64 scale factor
`1200 / max` and truncates with `int`; the float arithmetic is modelled
exactly by `scaledSide`. -/
def scaledDims (w h : Nat) : Nat × Nat :=
  let maxDimension := max w h
  if maxDimension > 1200 then
    (scaledSide w maxDimension, scaledSide h maxDimension)
  else (w, h)

/-- Relative error bound of one binary64 rounding in the normal range: half
an ulp of a 53-bit significand. -/
def eps : ℚ := 1 / 2 ^ 53

/-- Function `optimize_image` of `src/main.py`: choose JPEG when the pixmap
has at least three channels and PNG otherwise, downsample when the longer
side exceeds 1200, and encode; any exception makes it return the empty
string, modelled as `none`. -/
def optimize_image (p : Pixmap) : Option DataUrl :=
  if p.encodeFails then none
  else
    some { fmt := if p.n ≥ 3 then ImgFormat.jpeg else ImgFormat.png,
           width := (scaledDims p.width p.height).1,
           height := (scaledDims p.width p.height).2 }

/-- Position lookup for an image in `process_page`: start from the default
box `(0, 0, width, height)` and let every type-1 block carrying a bounding
box overwrite it, so the last such block wins. -/
def imageBBox (blocks : List Block) (w h : Nat) : ℚ × ℚ × ℚ × ℚ :=
  blocks.foldl
    (fun acc b =>
      if b.btype = 1 then
        match b.bbox with
        | some bb => bb
        | none => acc
      else acc)
    ((0 : ℚ), (0 : ℚ), (w : ℚ), (h : ℚ))

/-- One emitted image tag: position box and the data URL. -/
structure ImageNode where
  x0 : ℚ
  y0 : ℚ
  x1 : ℚ
  y1 : ℚ
  url : DataUrl
deriving DecidableEq

/-- Per-image body of the image loop in `process_page`: skip entries that
are invalid, whose extraction raises, whose dimensions fall outside the
range 10 to 5000, or whose data URL comes back empty; otherwise emit a
positioned image node. -/
def processImage (blocks : List Block) (info : ImageInfo) : Option ImageNode :=
  if !info.valid then none
  else if info.extractFails then none
  else if info.pixmap.width < 10 || info.pixmap.height < 10 ||
          info.pixmap.width > 5000 || info.pixmap.height > 5000 then none
  else
    match optimize_image info.pixmap with
    | none => none
    | some u =>
      some { x0 := (imageBBox blocks info.pixmap.width info.pixmap.height).1,
             y0 := (imageBBox blocks info.pixmap.width info.pixmap.height).2.1,
             x1 := (imageBBox blocks info.pixmap.width info.pixmap.height).2.2.1,
             y1 := (imageBBox blocks info.pixmap.width info.pixmap.height).2.2.2,
             url := u }

/-- Geometry of one decoded page as `process_page` reads it. -/
structure PageData where
  width : ℚ
  height : ℚ
  blocks : List Block
  images : List ImageInfo
deriving DecidableEq

/-- One page's rendered fragment: either the normal page div with its text
layer and image nodes, or the error placeholder emitted by the outer
exception handler of `process_page`. -/
inductive Fragment where
  | page (width height : ℚ) (texts : List TextNode) (imgs : List ImageNode)
  | errorPage (pageNum : Nat)
deriving DecidableEq

/-- Function `process_page` of `src/main.py`: a page whose extraction raises
is modelled as an `Except.error`; the handler turns it into the error
placeholder for that page number, and any other page renders normally. -/
def process_page (pageNum : Nat) (page : Except Unit PageData) : Fragment :=
  match page with
  | .error _ => .errorPage pageNum
  | .ok p =>
      .page p.width p.height (textNodes p.blocks)
        (p.images.filterMap (processImage p.blocks))

/-- Future-to-page map built by `pdf_to_html`: one pair of page index and
rendered fragment per page, submitted in index order. -/
def futuresOf (doc : List (Except Unit PageData)) : List (Nat × Fragment) :=
  doc.enum.map (fun ip => (ip.1, process_page ip.1 ip.2))

/-- Key order used by the sort over the future-to-page map. -/
def byPageIndex (a b : Nat × Fragment) : Prop := a.1 ≤ b.1

instance : DecidableRel byPageIndex := fun a b => Nat.decLe a.1 b.1

instance : IsTotal (Nat × Fragment) byPageIndex :=
  ⟨fun a b => Nat.le_total a.1 b.1⟩

instance : IsTrans (Nat × Fragment) byPageIndex :=
  ⟨fun _ _ _ hab hbc => Nat.le_trans hab hbc⟩

/-- Strict version of the key order, used to exploit that page indices are
pairwise distinct. -/
def byPageIndexLt (a b : Nat × Fragment) : Prop := a.1 < b.1

instance : IsAntisymm (Nat × Fragment) byPageIndexLt :=
  ⟨fun _ _ h1 h2 => absurd h2 (Nat.not_lt.mpr (Nat.le_of_lt h1))⟩

/-- Fan-in of `pdf_to_html`: the completed futures, in whatever order the
worker pool finished them, are sorted by page index before their fragments
are appended; the Python sort is modelled by insertion sort. -/
def assembleFragments (completed : List (Nat × Fragment)) : List Fragment :=
  (completed.insertionSort byPageIndex).map Prod.snd

/-- Page-body of `pdf_to_html` of `src/main.py`: render every page and
collect the fragments through the sorted fan-in. -/
def pdf_to_html (doc : List (Except Unit PageData)) : List Fragment :=
  assembleFragments (futuresOf doc)

/-- Head of the list, when present, is not whitespace. -/
def headNotWs : List Char → Bool
  | [] => true
  | c :: _ => !isPySpace c

/-- Well-formed whitespace: every whitespace character is a plain space and
is followed by a non-whitespace character or by the end of the string. -/
def goodWs : List Char → Bool
  | [] => true
  | c :: cs =>
    if isPySpace c then (c = ' ') && headNotWs cs && goodWs cs
    else goodWs cs

/-- Absence of the three characters that `sanitize_text` escapes. -/
def noSpec (s : List Char) : Prop :=
  ∀ c ∈ s, c ≠ '&' ∧ c ≠ '<' ∧ c ≠ '>'

/-- Example span at origin x 50, y 750 on a page of height 800, matching
end-to-end scenario A of the specification. -/
def span0 : TextSpan :=
  { text := ['H', 'i'], originX := 50, originY := 750, size := 12,
    color := SpanColor.gray 0, flags := 0 }

/-- Example page of size 600 by 800 holding only `span0`. -/
def page0 : PageData :=
  { width := 600, height := 800,
    blocks := [{ btype := 0, lines := [{ spans := [span0] }], bbox := none }],
    images := [] }

/-- Node that `renderSpan` emits for `span0`. -/
def node0 : TextNode :=
  { left := 50, top := 750, fontSize := 12 * FONT_SCALE_FACTOR,
    color := (0, 0, 0), bold := false, letterSpacing := true,
    text := ['H', 'i'] }

/-- Left-hand member of a pair of spans sharing baseline y 700. -/
def spanL : TextSpan :=
  { text := ['L'], originX := 10, originY := 700, size := 12,
    color := SpanColor.gray 0, flags := 0 }

/-- Right-hand member of a pair of spans sharing baseline y 700. -/
def spanR : TextSpan :=
  { text := ['R'], originX := 200, originY := 700, size := 12,
    color := SpanColor.gray 0, flags := 0 }

/-- Block holding the two same-baseline spans on one extracted line. -/
def blockLR : Block :=
  { btype := 0, lines := [{ spans := [spanL, spanR] }], bbox := none }

/-- Node that `renderSpan` emits for `spanL`. -/
def nodeL : TextNode :=
  { left := 10, top := 700, fontSize := 12 * FONT_SCALE_FACTOR,
    color := (0, 0, 0), bold := false, letterSpacing := true, text := ['L'] }

/-- Node that `renderSpan` emits for `spanR`. -/
def nodeR : TextNode :=
  { left := 200, top := 700, fontSize := 12 * FONT_SCALE_FACTOR,
    color := (0, 0, 0), bold := false, letterSpacing := true, text := ['R'] }

/-- Page holding the two same-baseline spans. -/
def pageLR : PageData :=
  { width := 600, height := 800, blocks := [blockLR], images := [] }

/-- Example three-page document whose middle page fails extraction. -/
def doc0 : List (Except Unit PageData) :=
  [Except.ok page0, Except.error (), Except.ok pageLR]

/-- Futures of `doc0` listed in a shuffled completion order. -/
def completed0 : List (Nat × Fragment) :=
  [(2, process_page 2 (Except.ok pageLR)),
   (0, process_page 0 (Except.ok page0)),
   (1, process_page 1 (Except.error ()))]

/-- Pixmap of the downsampling scenario: 3000 by 2000, three channels. -/
def pix3000 : Pixmap := { width := 3000, height := 2000, n := 3, encodeFails := false }

/-- Pixmap whose width 5 lies below the minimum threshold. -/
def pixSmall : Pixmap := { width := 5, height := 500, n := 3, encodeFails := false }

/-- Pixmap sitting exactly on the minimum threshold 10. -/
def pixOk : Pixmap := { width := 10, height := 10, n := 3, encodeFails := false }

/-- Pixmap whose width 5001 lies above the maximum threshold. -/
def pixBig : Pixmap := { width := 5001, height := 500, n := 3, encodeFails := false }

/-- Pixmap with in-range dimensions whose encoding raises. -/
def pixFail : Pixmap := { width := 100, height := 100, n := 3, encodeFails := true }

/-- Image info wrapper with a valid entry and successful extraction. -/
def infoOf (p : Pixmap) : ImageInfo :=
  { valid := true, extractFails := false, pixmap := p }

/-- Page holding one good image and one whose encoding fails. -/
def pageImgs : PageData :=
  { width := 600, height := 800, blocks := [],
    images := [infoOf pixOk, infoOf pixFail] }

/-- Helper: a span with nonempty sanitized text renders to the fully
determined node. -/
theorem renderSpan_eq_some (s : TextSpan) (h : sanitize_text s.text ≠ []) :
    renderSpan s =
      some { left := s.originX, top := s.originY,
             fontSize := s.size * FONT_SCALE_FACTOR,
             color := resolveColor s.color,
             bold := Nat.testBit s.flags 4,
             letterSpacing := ENABLE_TEXT_SPACING,
             text := sanitize_text s.text } := by
  unfold renderSpan
  rw [if_neg h]

/-- Helper: any emitted node carries the span's origin unchanged as its
left and top coordinates. -/
theorem renderSpan_top_left (s : TextSpan) (n : TextNode)
    (h : renderSpan s = some n) : n.top = s.originY ∧ n.left = s.originX := by
  unfold renderSpan at h
  split at h
  · exact Option.noConfusion h
  · injection h with h
    rw [← h]
    exact ⟨rfl, rfl⟩

/-- C1 counterexample: on the page of height 800, the run whose extracted
origin has y 750 is emitted with top 750, not with the flipped value
800 - 750 = 50 that the claim requires. -/
theorem top_not_flipped_cex :
    (textNodes page0.blocks).map TextNode.top = [(750 : ℚ)] ∧
    (textNodes page0.blocks).map TextNode.top ≠ [page0.height - (750 : ℚ)] := by
  refine ⟨rfl, fun hcontra => ?_⟩
  rw [show (textNodes page0.blocks).map TextNode.top = [(750 : ℚ)] from rfl]
    at hcontra
  have h1 : (750 : ℚ) = page0.height - 750 :=
    ((List.cons.injEq _ _ _ _).mp hcontra).1
  norm_num [page0] at h1

/-- C1 (amended): in the emitted style the top coordinate equals the run's
extracted y origin unchanged (and left equals the x origin); no vertical
flip against the page height is applied, because the extraction backend
already delivers top-left-origin coordinates. -/
theorem emitted_top_equals_origin_y (s : TextSpan) (n : TextNode)
    (h : renderSpan s = some n) : n.top = s.originY ∧ n.left = s.originX :=
  renderSpan_top_left s n h

/-- C1 witness: instantiated at the concrete span of scenario A. -/
theorem emitted_top_equals_origin_y_witness :
    node0.top = span0.originY ∧ node0.left = span0.originX :=
  emitted_top_equals_origin_y span0 node0 (renderSpan_eq_some span0 (by decide))

/-- C3 counterexample: two runs sharing baseline y 700 at x 10 and x 200
produce two separate text nodes holding their own texts, not one merged
node. -/
theorem same_y_runs_not_merged_cex :
    (textNodes [blockLR]).map TextNode.text = [['L'], ['R']] ∧
    (textNodes [blockLR]).length ≠ 1 := by
  refine ⟨rfl, ?_⟩
  rw [show (textNodes [blockLR]).length = 2 from rfl]
  norm_num

/-- C3 (amended): two runs with identical baseline y and different x origins
on one extracted line render as two separate DOM nodes, one per run in
input order, each holding only its own sanitized text; no merging into a
single line is performed. -/
theorem same_y_runs_render_separate_nodes (s1 s2 : TextSpan) (b : Block)
    (hb : b.btype = 0) (hlines : b.lines = [{ spans := [s1, s2] }])
    (_hy : s1.originY = s2.originY) (_hx : s1.originX ≠ s2.originX)
    (h1 : sanitize_text s1.text ≠ []) (h2 : sanitize_text s2.text ≠ []) :
    ∃ n1 n2 : TextNode,
      renderSpan s1 = some n1 ∧ renderSpan s2 = some n2 ∧
      textNodes [b] = [n1, n2] ∧
      n1.text = sanitize_text s1.text ∧ n2.text = sanitize_text s2.text := by
  refine ⟨_, _, renderSpan_eq_some s1 h1, renderSpan_eq_some s2 h2, ?_, rfl, rfl⟩
  unfold textNodes
  rw [List.flatMap_cons, List.flatMap_nil, if_pos hb, hlines]
  simp [renderSpan_eq_some s1 h1, renderSpan_eq_some s2 h2]

/-- C3 witness: instantiated at the two concrete spans of scenario B. -/
theorem same_y_runs_render_separate_nodes_witness :
    ∃ n1 n2 : TextNode,
      renderSpan spanL = some n1 ∧ renderSpan spanR = some n2 ∧
      textNodes [blockLR] = [n1, n2] ∧
      n1.text = sanitize_text spanL.text ∧ n2.text = sanitize_text spanR.text :=
  same_y_runs_render_separate_nodes spanL spanR blockLR rfl rfl rfl
    (by norm_num [spanL, spanR]) (by decide) (by decide)

/-- C4 counterexample: the two lines with identical y-keys receive the same
final vertical position 700 twice; the positions are not distinct, so no
collision offset is ever applied. -/
theorem same_y_positions_not_distinct_cex :
    (textNodes [blockLR]).map TextNode.top = [(700 : ℚ), 700] ∧
    ¬ ((textNodes [blockLR]).map TextNode.top).Nodup := by
  refine ⟨rfl, fun hcontra => ?_⟩
  rw [show (textNodes [blockLR]).map TextNode.top = [(700 : ℚ), 700] from rfl]
    at hcontra
  exact (List.nodup_cons.mp hcontra).1 (List.mem_singleton.mpr rfl)

/-- C4 (amended): all runs sharing an origin y are emitted at exactly that
vertical position, so colliding positions stay equal (hence trivially
non-decreasing in input order); no collision-resolution offset exists. -/
theorem equal_y_runs_equal_top (s1 s2 : TextSpan) (n1 n2 : TextNode)
    (h1 : renderSpan s1 = some n1) (h2 : renderSpan s2 = some n2)
    (hy : s1.originY = s2.originY) : n1.top = n2.top := by
  rw [(renderSpan_top_left s1 n1 h1).1, (renderSpan_top_left s2 n2 h2).1, hy]

/-- C4 witness: instantiated at the two concrete same-baseline spans. -/
theorem equal_y_runs_equal_top_witness : nodeL.top = nodeR.top :=
  equal_y_runs_equal_top spanL spanR nodeL nodeR
    (renderSpan_eq_some spanL (by decide)) (renderSpan_eq_some spanR (by decide))
    rfl

/-- C7: for a valid, successfully extracted and encodable image entry, the
image loop of `process_page` produces no node exactly when a dimension lies
below 10 or above 5000; the skip is a plain `none`, never an error. -/
theorem image_skipped_iff_out_of_range (blocks : List Block) (info : ImageInfo)
    (hv : info.valid = true) (he : info.extractFails = false)
    (hf : info.pixmap.encodeFails = false) :
    processImage blocks info = none ↔
      (info.pixmap.width < 10 ∨ info.pixmap.height < 10 ∨
       info.pixmap.width > 5000 ∨ info.pixmap.height > 5000) := by
  unfold processImage optimize_image
  rw [hv, he, hf]
  by_cases hdim : (info.pixmap.width < 10 ∨ info.pixmap.height < 10 ∨
      info.pixmap.width > 5000 ∨ info.pixmap.height > 5000)
  · simp only [hdim, iff_true]
    have hbool : (decide (info.pixmap.width < 10) ||
        decide (info.pixmap.height < 10) ||
        decide (info.pixmap.width > 5000) ||
        decide (info.pixmap.height > 5000)) = true := by
      rcases hdim with h | h | h | h <;> simp [h]
    simp [hbool]
  · push_neg at hdim
    obtain ⟨hw1, hh1, hw2, hh2⟩ := hdim
    simp [Nat.not_lt.mpr hw1, Nat.not_lt.mpr hh1,
          Nat.not_lt.mpr hw2, Nat.not_lt.mpr hh2]

/-- C7 witness: width 5 is skipped, width 10 (height 10) is kept, width
5001 is skipped, on valid entries with working encoding. -/
theorem image_skipped_iff_out_of_range_witness :
    processImage [] (infoOf pixSmall) = none ∧
    processImage [] (infoOf pixOk) ≠ none ∧
    processImage [] (infoOf pixBig) = none := by
  refine ⟨?_, ?_, ?_⟩
  · exact (image_skipped_iff_out_of_range [] (infoOf pixSmall) rfl rfl rfl).mpr
      (Or.inl (by decide))
  · intro hnone
    rcases (image_skipped_iff_out_of_range [] (infoOf pixOk) rfl rfl rfl).mp hnone
      with h | h | h | h <;> revert h <;> decide
  · exact (image_skipped_iff_out_of_range [] (infoOf pixBig) rfl rfl rfl).mpr
      (Or.inr (Or.inr (Or.inl (by decide))))

/-- C9: when an image's encoding raises, `optimize_image` resolves to the
empty result, the image loop emits no node for it, and `process_page` still
returns the normal page fragment built from the remaining content; the
failure never escapes the page. -/
theorem encode_failure_never_escapes_page (pd : PageData) (pageNum : Nat)
    (info : ImageInfo) (hf : info.pixmap.encodeFails = true) :
    optimize_image info.pixmap = none ∧
    processImage pd.blocks info = none ∧
    process_page pageNum (Except.ok pd) =
      Fragment.page pd.width pd.height (textNodes pd.blocks)
        (pd.images.filterMap (processImage pd.blocks)) := by
  have h1 : optimize_image info.pixmap = none := by
    unfold optimize_image
    rw [hf]
    simp
  refine ⟨h1, ?_, rfl⟩
  unfold processImage
  rw [h1]
  split
  · rfl
  · split
    · rfl
    · split
      · rfl
      · rfl

/-- C9 witness: instantiated at the page holding one good image and one
whose encoding fails. -/
theorem encode_failure_never_escapes_page_witness :
    optimize_image (infoOf pixFail).pixmap = none ∧
    processImage pageImgs.blocks (infoOf pixFail) = none ∧
    process_page 0 (Except.ok pageImgs) =
      Fragment.page pageImgs.width pageImgs.height (textNodes pageImgs.blocks)
        (pageImgs.images.filterMap (processImage pageImgs.blocks)) :=
  encode_failure_never_escapes_page pageImgs 0 (infoOf pixFail) rfl

/-- C10: an image whose longer side is at most the cap 1200 keeps its pixel
dimensions exactly; only the format encoding is applied. -/
theorem no_upscale_below_cap (p : Pixmap) (hf : p.encodeFails = false)
    (hle : max p.width p.height ≤ 1200) :
    optimize_image p =
      some { fmt := if p.n ≥ 3 then ImgFormat.jpeg else ImgFormat.png,
             width := p.width, height := p.height } := by
  unfold optimize_image scaledDims
  rw [hf]
  simp [Nat.not_lt.mpr hle]

/-- C10 witness: a 1200 by 800 three-channel pixmap is encoded as JPEG with
its dimensions unchanged. -/
theorem no_upscale_below_cap_witness :
    optimize_image { width := 1200, height := 800, n := 3, encodeFails := false } =
      some { fmt := ImgFormat.jpeg, width := 1200, height := 800 } :=
  no_upscale_below_cap
    { width := 1200, height := 800, n := 3, encodeFails := false } rfl (by decide)

/-- Helper: the keys of the future-to-page map are exactly the page
indices. -/
theorem futuresOf_map_fst (doc : List (Except Unit PageData)) :
    (futuresOf doc).map Prod.fst = List.range doc.length := by
  unfold futuresOf
  rw [List.map_map]
  exact List.enum_map_fst doc

/-- Helper: sorting any permutation of the future-to-page map by page index
restores the submission order, because the keys are pairwise distinct. -/
theorem assembleFragments_perm (doc : List (Except Unit PageData))
    (completed : List (Nat × Fragment)) (h : completed.Perm (futuresOf doc)) :
    assembleFragments completed = (futuresOf doc).map Prod.snd := by
  have hperm : (completed.insertionSort byPageIndex).Perm (futuresOf doc) :=
    (List.perm_insertionSort byPageIndex completed).trans h
  have hsorted : List.Sorted byPageIndex (completed.insertionSort byPageIndex) :=
    List.sorted_insertionSort byPageIndex completed
  have hfpair : (futuresOf doc).Pairwise byPageIndexLt := by
    have h1 : ((futuresOf doc).map Prod.fst).Pairwise (· < ·) := by
      rw [futuresOf_map_fst]
      exact List.pairwise_lt_range doc.length
    exact List.Pairwise.of_map Prod.fst (fun a b hab => hab) h1
  have hnodupkeys : ((completed.insertionSort byPageIndex).map Prod.fst).Nodup := by
    have h2 : ((futuresOf doc).map Prod.fst).Nodup := by
      rw [futuresOf_map_fst]
      exact List.nodup_range doc.length
    exact (hperm.map Prod.fst).nodup_iff.mpr h2
  have hne : (completed.insertionSort byPageIndex).Pairwise
      (fun a b => a.1 ≠ b.1) :=
    List.Pairwise.of_map Prod.fst (fun a b hab => hab) hnodupkeys
  have hslt : (completed.insertionSort byPageIndex).Pairwise byPageIndexLt := by
    have h3 := List.Pairwise.and hsorted hne
    exact h3.imp (fun hab => lt_of_le_of_ne hab.1 hab.2)
  have heq : completed.insertionSort byPageIndex = futuresOf doc :=
    List.eq_of_perm_of_sorted hperm hslt hfpair
  unfold assembleFragments
  rw [heq]

/-- C5: whatever order the worker pool completes the page futures in, the
assembled output lists the fragments in strict ascending page-index
order, which is the submission order of the futures. -/
theorem fragments_in_page_index_order (doc : List (Except Unit PageData))
    (completed : List (Nat × Fragment)) (h : completed.Perm (futuresOf doc)) :
    assembleFragments completed = (futuresOf doc).map Prod.snd :=
  assembleFragments_perm doc completed h

/-- C5 witness: the shuffled completion order of the three-page document
reassembles into index order. -/
theorem fragments_in_page_index_order_witness :
    completed0.Perm (futuresOf doc0) ∧
    assembleFragments completed0 = (futuresOf doc0).map Prod.snd := by
  have hp : completed0.Perm (futuresOf doc0) := by
    show ([(2, process_page 2 (Except.ok pageLR)),
           (0, process_page 0 (Except.ok page0)),
           (1, process_page 1 (Except.error ()))] : List (Nat × Fragment)).Perm
        [(0, process_page 0 (Except.ok page0)),
         (1, process_page 1 (Except.error ())),
         (2, process_page 2 (Except.ok pageLR))]
    exact (List.Perm.swap _ _ _).trans (List.Perm.cons _ (List.Perm.swap _ _ _))
  exact ⟨hp, fragments_in_page_index_order doc0 completed0 hp⟩

/-- Helper: the pipeline output equals the per-page render mapped over the
indexed pages. -/
theorem pdf_to_html_eq_map (doc : List (Except Unit PageData)) :
    pdf_to_html doc = doc.enum.map (fun ip => process_page ip.1 ip.2) := by
  unfold pdf_to_html
  rw [assembleFragments_perm doc (futuresOf doc) (List.Perm.refl _)]
  unfold futuresOf
  rw [List.map_map]
  rfl

/-- C6: a page whose extraction raises yields exactly the error placeholder
in its own slot of the output, while every successfully extracted page
still renders to its normal fragment; document assembly is a total
function, so no exception propagates to the caller. -/
theorem page_error_isolated_to_slot (doc : List (Except Unit PageData))
    (i : Nat) (hi : doc[i]? = some (Except.error ())) :
    (pdf_to_html doc)[i]? = some (Fragment.errorPage i) ∧
    ∀ (j : Nat) (p : PageData), doc[j]? = some (Except.ok p) →
      (pdf_to_html doc)[j]? =
        some (Fragment.page p.width p.height (textNodes p.blocks)
          (p.images.filterMap (processImage p.blocks))) := by
  constructor
  · rw [pdf_to_html_eq_map, List.getElem?_map, List.getElem?_enum, hi]
    rfl
  · intro j p hj
    rw [pdf_to_html_eq_map, List.getElem?_map, List.getElem?_enum, hj]
    rfl

/-- C6 witness: in the three-page document with a failing middle page, slot
1 is the placeholder and slot 0 renders normally. -/
theorem page_error_isolated_to_slot_witness :
    (pdf_to_html doc0)[1]? = some (Fragment.errorPage 1) ∧
    (pdf_to_html doc0)[0]? =
      some (Fragment.page page0.width page0.height (textNodes page0.blocks)
        (page0.images.filterMap (processImage page0.blocks))) := by
  have h := page_error_isolated_to_slot doc0 1 rfl
  exact ⟨h.1, h.2 0 page0 rfl⟩

/-- C2 counterexample: sanitizing an ampersand once yields its escape, and
sanitizing again escapes the escape's own ampersand, so sanitization is not
idempotent. -/
theorem sanitize_not_idempotent_cex :
    sanitize_text ['&'] = ampEsc ∧
    sanitize_text (sanitize_text ['&']) ≠ sanitize_text ['&'] := by
  decide

/-- Helper: every character of the squeezed list is a space or occurs in
the input. -/
theorem mem_squeezeWs {c : Char} : ∀ (b : Bool) (s : List Char),
    c ∈ squeezeWs b s → c = ' ' ∨ c ∈ s := by
  intro b s
  induction s generalizing b with
  | nil =>
    intro h
    simp [squeezeWs] at h
  | cons d ds ih =>
    intro h
    cases hd : isPySpace d with
    | true =>
      cases b with
      | true =>
        simp only [squeezeWs, hd, if_true] at h
        rcases ih true h with h1 | h1
        · exact Or.inl h1
        · exact Or.inr (List.mem_cons_of_mem d h1)
      | false =>
        simp only [squeezeWs, hd, if_true, if_false] at h
        rcases List.mem_cons.mp h with h1 | h1
        · exact Or.inl h1
        · rcases ih true h1 with h2 | h2
          · exact Or.inl h2
          · exact Or.inr (List.mem_cons_of_mem d h2)
    | false =>
      simp only [squeezeWs, hd, Bool.false_eq_true, if_false] at h
      rcases List.mem_cons.mp h with h1 | h1
      · exact Or.inr (h1 ▸ List.mem_cons_self d ds)
      · rcases ih false h1 with h2 | h2
        · exact Or.inl h2
        · exact Or.inr (List.mem_cons_of_mem d h2)

/-- Helper: squeezing with the flag set never yields a leading space. -/
theorem headNotWs_squeezeWs_true (s : List Char) :
    headNotWs (squeezeWs true s) = true := by
  induction s with
  | nil => rfl
  | cons d ds ih =>
    cases hd : isPySpace d with
    | true => simpa [squeezeWs, hd] using ih
    | false => simp [squeezeWs, hd, headNotWs]

/-- Helper: squeezing always yields well-formed whitespace. -/
theorem goodWs_squeezeWs (s : List Char) : ∀ b, goodWs (squeezeWs b s) = true := by
  induction s with
  | nil => intro b; rfl
  | cons d ds ih =>
    intro b
    cases hd : isPySpace d with
    | true =>
      cases b with
      | true => simpa [squeezeWs, hd] using ih true
      | false =>
        simp only [squeezeWs, hd, if_true, if_false]
        simp [goodWs, headNotWs_squeezeWs_true ds, ih true]
    | false =>
      simp only [squeezeWs, hd, Bool.false_eq_true, if_false]
      simp [goodWs, hd, ih false]

/-- Helper: well-formed whitespace restricts to any left factor of an
append. -/
theorem goodWs_append_left : ∀ (l r : List Char),
    goodWs (l ++ r) = true → goodWs l = true := by
  intro l
  induction l with
  | nil => intro r _; rfl
  | cons c l' ih =>
    intro r h
    cases hc : isPySpace c with
    | true =>
      rw [List.cons_append] at h
      simp only [goodWs, hc, if_true, Bool.and_eq_true] at h ⊢
      obtain ⟨⟨hce, hhd⟩, hgw⟩ := h
      refine ⟨⟨hce, ?_⟩, ih r hgw⟩
      cases l' with
      | nil => rfl
      | cons d ds =>
        rw [List.cons_append] at hhd
        exact hhd
    | false =>
      rw [List.cons_append] at h
      simp only [goodWs, hc, Bool.false_eq_true, if_false] at h ⊢
      exact ih r h

/-- Helper: the part removed by a dropWhile can be put back in front. -/
theorem dropWhile_decomp (p : Char → Bool) (l : List Char) :
    ∃ pre, pre ++ l.dropWhile p = l := by
  induction l with
  | nil => exact ⟨[], rfl⟩
  | cons c cs ih =>
    cases hc : p c with
    | true =>
      obtain ⟨pre, hp⟩ := ih
      exact ⟨c :: pre, by simp [List.dropWhile_cons, hc, hp]⟩
    | false => exact ⟨[], by simp [List.dropWhile_cons, hc]⟩

/-- Helper: right-stripping removes a suffix, leaving a left factor. -/
theorem rstripWs_append (t : List Char) : ∃ suf, rstripWs t ++ suf = t := by
  obtain ⟨pre, hpre⟩ := dropWhile_decomp isPySpace t.reverse
  refine ⟨pre.reverse, ?_⟩
  unfold rstripWs
  rw [← List.reverse_append, hpre, List.reverse_reverse]

/-- Helper: right-stripping keeps the head, so a non-space head stays. -/
theorem headNotWs_rstripWs (t : List Char) (h : headNotWs t = true) :
    headNotWs (rstripWs t) = true := by
  obtain ⟨suf, hsuf⟩ := rstripWs_append t
  cases hr : rstripWs t with
  | nil => rfl
  | cons c cs =>
    rw [hr] at hsuf
    rw [← hsuf] at h
    simpa [headNotWs] using h

/-- Helper: a list with a non-space head is untouched by dropWhile. -/
theorem dropWhile_headNotWs (u : List Char) (h : headNotWs u = true) :
    u.dropWhile isPySpace = u := by
  cases u with
  | nil => rfl
  | cons c cs =>
    unfold headNotWs at h
    simp only [Bool.not_eq_eq_eq_not, Bool.not_true] at h
    simp [List.dropWhile_cons, h]

/-- Helper: dropWhile is idempotent. -/
theorem dropWhile_idem (p : Char → Bool) (l : List Char) :
    (l.dropWhile p).dropWhile p = l.dropWhile p := by
  induction l with
  | nil => rfl
  | cons c cs ih =>
    cases hc : p c with
    | true => simp [List.dropWhile_cons, hc, ih]
    | false => simp [List.dropWhile_cons, hc]

/-- Helper: right-stripping is idempotent. -/
theorem rstripWs_idem (t : List Char) : rstripWs (rstripWs t) = rstripWs t := by
  unfold rstripWs
  rw [List.reverse_reverse, dropWhile_idem]

/-- Helper: the squeeze flag is irrelevant when the list has no leading
whitespace. -/
theorem squeezeWs_true_eq_false (cs : List Char) (h : headNotWs cs = true) :
    squeezeWs true cs = squeezeWs false cs := by
  cases cs with
  | nil => rfl
  | cons d ds =>
    unfold headNotWs at h
    simp only [Bool.not_eq_eq_eq_not, Bool.not_true] at h
    simp [squeezeWs, h]

/-- Helper: a list with well-formed whitespace is a fixed point of
squeezing. -/
theorem squeezeWs_fix : ∀ t : List Char, goodWs t = true → squeezeWs false t = t := by
  intro t
  induction t with
  | nil => intro _; rfl
  | cons c cs ih =>
    intro h
    cases hc : isPySpace c with
    | true =>
      have h' := h
      simp only [goodWs, hc, if_true, Bool.and_eq_true, decide_eq_true_eq] at h'
      obtain ⟨⟨hce, hhd⟩, hgw⟩ := h'
      simp only [squeezeWs, hc, if_true, Bool.false_eq_true, if_false]
      rw [squeezeWs_true_eq_false cs hhd, ih hgw, hce]
    | false =>
      have h' := h
      simp only [goodWs, hc, Bool.false_eq_true, if_false] at h'
      simp only [squeezeWs, hc, Bool.false_eq_true, if_false]
      rw [ih h']

/-- Helper: replacing a character that does not occur is the identity. -/
theorem replaceChar_eq_self (t : Char) (r : List Char) :
    ∀ s : List Char, (∀ c ∈ s, c ≠ t) → replaceChar t r s = s := by
  intro s
  induction s with
  | nil => intro _; rfl
  | cons c cs ih =>
    intro h
    unfold replaceChar
    rw [if_neg (h c (List.mem_cons_self c cs)),
        ih (fun d hd => h d (List.mem_cons_of_mem c hd))]
    rfl

/-- Helper: escaping text free of the three metacharacters is the
identity. -/
theorem escapeHtml_eq_self (s : List Char) (h : noSpec s) : escapeHtml s = s := by
  unfold escapeHtml
  rw [replaceChar_eq_self '&' ampEsc s (fun c hc => (h c hc).1),
      replaceChar_eq_self '<' ltEsc s (fun c hc => (h c hc).2.1),
      replaceChar_eq_self '>' gtEsc s (fun c hc => (h c hc).2.2)]

/-- Helper: collapsing whitespace introduces no metacharacter. -/
theorem noSpec_collapseWs {s : List Char} (h : noSpec s) : noSpec (collapseWs s) := by
  intro c hc
  rcases mem_squeezeWs false s hc with h1 | h1
  · subst h1
    refine ⟨by decide, by decide, by decide⟩
  · exact h c h1

/-- Helper: stripping removes characters only, so it introduces no
metacharacter. -/
theorem noSpec_stripWs {s : List Char} (h : noSpec s) : noSpec (stripWs s) := by
  intro c hc
  apply h
  unfold stripWs rstripWs lstripWs at hc
  rw [List.mem_reverse] at hc
  have h1 := (List.dropWhile_sublist isPySpace).subset hc
  rw [List.mem_reverse] at h1
  exact (List.dropWhile_sublist isPySpace).subset h1

/-- Helper: on metacharacter-free input, sanitization is collapse followed
by strip. -/
theorem sanitize_eq_stripCollapse (s : List Char) (h : noSpec s) :
    sanitize_text s = stripWs (collapseWs s) := by
  unfold sanitize_text
  rw [escapeHtml_eq_self (collapseWs s) (noSpec_collapseWs h)]

/-- Helper: left-stripping a collapsed list equals squeezing with the flag
set. -/
theorem lstripWs_collapseWs (s : List Char) :
    lstripWs (collapseWs s) = squeezeWs true s := by
  cases s with
  | nil => rfl
  | cons c cs =>
    cases hc : isPySpace c with
    | true =>
      show ((squeezeWs false (c :: cs)).dropWhile isPySpace) = squeezeWs true (c :: cs)
      simp only [squeezeWs, hc, if_true, Bool.false_eq_true, if_false]
      rw [List.dropWhile_cons]
      simp only [if_pos (by decide : isPySpace ' ' = true), if_true]
      exact dropWhile_headNotWs _ (headNotWs_squeezeWs_true cs)
    | false =>
      show ((squeezeWs false (c :: cs)).dropWhile isPySpace) = squeezeWs true (c :: cs)
      simp only [squeezeWs, hc, Bool.false_eq_true, if_false]
      rw [List.dropWhile_cons]
      simp [hc]

/-- Helper: collapse followed by strip is a fixed point of itself. -/
theorem stripCollapse_fix (s : List Char) :
    stripWs (collapseWs (stripWs (collapseWs s))) = stripWs (collapseWs s) := by
  have hu : stripWs (collapseWs s) = rstripWs (squeezeWs true s) := by
    unfold stripWs
    rw [lstripWs_collapseWs]
  obtain ⟨suf, hsuf⟩ := rstripWs_append (squeezeWs true s)
  have hgu : goodWs (rstripWs (squeezeWs true s)) = true :=
    goodWs_append_left _ suf (by rw [hsuf]; exact goodWs_squeezeWs s true)
  have hhu : headNotWs (rstripWs (squeezeWs true s)) = true :=
    headNotWs_rstripWs _ (headNotWs_squeezeWs_true s)
  rw [hu]
  have hcol : collapseWs (rstripWs (squeezeWs true s)) = rstripWs (squeezeWs true s) :=
    squeezeWs_fix _ hgu
  rw [hcol]
  unfold stripWs lstripWs
  rw [dropWhile_headNotWs _ hhu]
  exact rstripWs_idem _

/-- C2 (amended): sanitization is idempotent exactly on the escape-free
fragment: for every string containing none of the characters that get
escaped, sanitizing twice equals sanitizing once; on strings containing
an ampersand or an angle bracket the second pass re-escapes the output of
the first, as the counterexample shows. -/
theorem sanitize_idempotent_without_specials (s : List Char)
    (h : ∀ c ∈ s, c ≠ '&' ∧ c ≠ '<' ∧ c ≠ '>') :
    sanitize_text (sanitize_text s) = sanitize_text s := by
  have h1 : sanitize_text s = stripWs (collapseWs s) := sanitize_eq_stripCollapse s h
  have h2 : noSpec (stripWs (collapseWs s)) := noSpec_stripWs (noSpec_collapseWs h)
  rw [h1, sanitize_eq_stripCollapse _ h2, stripCollapse_fix]

/-- C2 witness: instantiated at a concrete escape-free string with internal
and trailing whitespace. -/
theorem sanitize_idempotent_without_specials_witness :
    sanitize_text (sanitize_text ['a', ' ', ' ', 'b', '\t']) =
      sanitize_text ['a', ' ', ' ', 'b', '\t'] :=
  sanitize_idempotent_without_specials ['a', ' ', ' ', 'b', '\t'] (by decide)

/-- Helper: with enough fuel, `log2Fuel` brackets its argument between
consecutive powers of two. -/
theorem log2Fuel_bounds : ∀ (fuel n : Nat), 1 ≤ n → n ≤ fuel →
    2 ^ log2Fuel fuel n ≤ n ∧ n < 2 ^ (log2Fuel fuel n + 1) := by
  intro fuel
  induction fuel with
  | zero => intro n h1 h2; omega
  | succ fuel ih =>
    intro n h1 h2
    by_cases h : 2 ≤ n
    · have hrec : log2Fuel (fuel + 1) n = log2Fuel fuel (n / 2) + 1 := by
        simp [log2Fuel, h]
      have hd1 : 1 ≤ n / 2 := Nat.one_le_div_iff (by norm_num) |>.mpr h
      have hd2 : n / 2 ≤ fuel := by omega
      obtain ⟨hl, hr⟩ := ih (n / 2) hd1 hd2
      have hmod := Nat.div_add_mod n 2
      have hm2 : n % 2 < 2 := Nat.mod_lt n (by norm_num)
      rw [hrec]
      constructor
      · rw [pow_succ]
        omega
      · rw [pow_succ] at hr
        rw [pow_succ, pow_succ]
        omega
    · have h1' : n = 1 := by omega
      subst h1'
      simp [log2Fuel]

/-- Helper: `natLog2` brackets a positive natural between consecutive
powers of two. -/
theorem natLog2_bounds (n : Nat) (h : 1 ≤ n) :
    2 ^ natLog2 n ≤ n ∧ n < 2 ^ (natLog2 n + 1) :=
  log2Fuel_bounds n n h le_rfl

/-- Helper: an integer power of two written with the two truncations of its
exponent. -/
theorem zpow_toNat_div (e : ℤ) :
    (2 : ℚ) ^ e = (2 : ℚ) ^ e.toNat / (2 : ℚ) ^ (-e).toNat := by
  rcases le_or_lt 0 e with he | he
  · have h1 : (-e).toNat = 0 := Int.toNat_of_nonpos (by omega)
    rw [h1, pow_zero, div_one]
    rw [show e = (e.toNat : ℤ) from (Int.toNat_of_nonneg he).symm]
    exact zpow_natCast 2 e.toNat
  · have h1 : e.toNat = 0 := Int.toNat_of_nonpos (le_of_lt he)
    have h2 : e = -((-e).toNat : ℤ) := by
      rw [Int.toNat_of_nonneg (by omega : (0:ℤ) ≤ -e)]
      ring
    rw [h1, pow_zero]
    conv_lhs => rw [h2]
    rw [zpow_neg, zpow_natCast, one_div]

/-- Helper: a natural power of two cast to the rationals is an integer
power. -/
theorem nat_pow_cast_zpow (k : Nat) : ((2 ^ k : ℕ) : ℚ) = (2 : ℚ) ^ (k : ℤ) := by
  push_cast
  exact (zpow_natCast 2 k).symm

/-- Helper: the shift comparison in `floorLog2` decides whether the scaled
power of two lies below the fraction. -/
theorem shift_le_iff (a b : Nat) (e : Int) :
    (b <<< e.toNat ≤ a <<< (-e).toNat) ↔ (b : ℚ) * (2 : ℚ) ^ e ≤ (a : ℚ) := by
  have hpow : (0 : ℚ) < 2 ^ (-e).toNat := by positivity
  rw [Nat.shiftLeft_eq, Nat.shiftLeft_eq, ← Nat.cast_le (α := ℚ)]
  push_cast
  rw [zpow_toNat_div e, mul_div_assoc', div_le_iff₀ hpow]

/-- Helper: `floorLog2` brackets the fraction between consecutive integer
powers of two. -/
theorem floorLog2_bounds (a b : Nat) (ha : 0 < a) (hb : 0 < b) :
    (2 : ℚ) ^ floorLog2 a b * b ≤ a ∧ (a : ℚ) < 2 ^ (floorLog2 a b + 1) * b := by
  obtain ⟨ha1, ha2⟩ := natLog2_bounds a ha
  obtain ⟨hb1, hb2⟩ := natLog2_bounds b hb
  have ha1q : (2 : ℚ) ^ ((natLog2 a : ℤ)) ≤ (a : ℚ) := by
    rw [← nat_pow_cast_zpow]
    exact_mod_cast ha1
  have ha2q : (a : ℚ) < 2 ^ ((natLog2 a : ℤ) + 1) := by
    rw [show ((natLog2 a : ℤ) + 1) = ((natLog2 a + 1 : ℕ) : ℤ) by push_cast; ring,
        ← nat_pow_cast_zpow]
    exact_mod_cast ha2
  have hb1q : (2 : ℚ) ^ ((natLog2 b : ℤ)) ≤ (b : ℚ) := by
    rw [← nat_pow_cast_zpow]
    exact_mod_cast hb1
  have hb2q : (b : ℚ) < 2 ^ ((natLog2 b : ℤ) + 1) := by
    rw [show ((natLog2 b : ℤ) + 1) = ((natLog2 b + 1 : ℕ) : ℤ) by push_cast; ring,
        ← nat_pow_cast_zpow]
    exact_mod_cast hb2
  have h2 : (0 : ℚ) < 2 := by norm_num
  simp only [floorLog2]
  by_cases hc : b <<< ((natLog2 a : Int) - (natLog2 b : Int)).toNat ≤
      a <<< (-((natLog2 a : Int) - (natLog2 b : Int))).toNat
  · rw [if_pos hc]
    have hle := (shift_le_iff a b _).mp hc
    constructor
    · linarith
    · calc (a : ℚ) < 2 ^ ((natLog2 a : ℤ) + 1) := ha2q
        _ = 2 ^ (((natLog2 a : ℤ) - natLog2 b) + 1) * 2 ^ ((natLog2 b : ℤ)) := by
            rw [← zpow_add₀ (by norm_num : (2:ℚ) ≠ 0)]
            ring_nf
        _ ≤ 2 ^ (((natLog2 a : ℤ) - natLog2 b) + 1) * b := by
            have := zpow_pos h2 (((natLog2 a : ℤ) - natLog2 b) + 1)
            nlinarith
  · rw [if_neg hc]
    have hlt : (a : ℚ) < b * 2 ^ ((natLog2 a : ℤ) - natLog2 b) := by
      have := (shift_le_iff a b ((natLog2 a : ℤ) - natLog2 b)).not.mpr
      exact lt_of_not_le (fun hcon => hc ((shift_le_iff a b _).mpr hcon))
    constructor
    · have hstep : (2 : ℚ) ^ (((natLog2 a : ℤ) - natLog2 b) - 1) * b <
          2 ^ (((natLog2 a : ℤ) - natLog2 b) - 1) * 2 ^ ((natLog2 b : ℤ) + 1) := by
        have := zpow_pos h2 (((natLog2 a : ℤ) - natLog2 b) - 1)
        nlinarith
      have heq : (2 : ℚ) ^ (((natLog2 a : ℤ) - natLog2 b) - 1) *
          2 ^ ((natLog2 b : ℤ) + 1) = 2 ^ ((natLog2 a : ℤ)) := by
        rw [← zpow_add₀ (by norm_num : (2:ℚ) ≠ 0)]
        ring_nf
      linarith
    · have heq : ((natLog2 a : ℤ) - natLog2 b) - 1 + 1 =
          (natLog2 a : ℤ) - natLog2 b := by ring
      rw [heq]
      linarith

/-- Helper: twice the signed distance between the rounded quotient and the
exact fraction is bounded by the denominator, stated over the integers. -/
theorem rne_close_int (num den : Nat) (hden : 0 < den) :
    2 * ((num : ℤ) - (rne num den : ℤ) * den) ≤ den ∧
    2 * ((rne num den : ℤ) * den - num) ≤ den := by
  have hmod := Nat.div_add_mod num den
  have hmodz : (den : ℤ) * ((num : ℤ) / den) + (num : ℤ) % den = num := by
    exact_mod_cast hmod
  have hmz : (num : ℤ) % den < den := by
    exact_mod_cast Nat.mod_lt num hden
  have hm0 : (0 : ℤ) ≤ (num : ℤ) % den :=
    Int.emod_nonneg _ (by exact_mod_cast hden.ne')
  have hdenz : (0 : ℤ) < den := by exact_mod_cast hden
  unfold rne
  split_ifs with h1 h2 h3
  · have h1z : 2 * ((num : ℤ) % den) < den := by exact_mod_cast h1
    push_cast
    constructor <;> linarith
  · have h2z : (den : ℤ) < 2 * ((num : ℤ) % den) := by exact_mod_cast h2
    push_cast
    constructor <;> linarith
  · have h1z : (den : ℤ) ≤ 2 * ((num : ℤ) % den) := by
      exact_mod_cast Nat.le_of_not_lt h1
    have h2z : 2 * ((num : ℤ) % den) ≤ den := by
      exact_mod_cast Nat.le_of_not_lt h2
    push_cast
    constructor <;> linarith
  · have h1z : (den : ℤ) ≤ 2 * ((num : ℤ) % den) := by
      exact_mod_cast Nat.le_of_not_lt h1
    have h2z : 2 * ((num : ℤ) % den) ≤ den := by
      exact_mod_cast Nat.le_of_not_lt h2
    push_cast
    constructor <;> linarith

/-- Helper: the rounded quotient is within one half of the exact fraction. -/
theorem rne_close (num den : Nat) (hden : 0 < den) :
    (num : ℚ) / den - 1 / 2 ≤ (rne num den : ℚ) ∧
    (rne num den : ℚ) ≤ (num : ℚ) / den + 1 / 2 := by
  obtain ⟨hi1, hi2⟩ := rne_close_int num den hden
  have hdq : (0 : ℚ) < den := by exact_mod_cast hden
  have hq1 : 2 * ((num : ℚ) - (rne num den : ℚ) * den) ≤ den := by exact_mod_cast hi1
  have hq2 : 2 * ((rne num den : ℚ) * den - num) ≤ den := by exact_mod_cast hi2
  constructor
  · rw [div_sub' _ _ _ hdq.ne', div_le_iff₀ hdq]
    linarith
  · rw [div_add' _ _ _ hdq.ne', le_div_iff₀ hdq]
    linarith

/-- Helper: value identity for the scaled numerator and denominator used in
`rnPair`: the integer fraction is the input fraction scaled by
`2 ^ (52 - e)`. -/
theorem rn_num_den_val (a b : Nat) (e : Int) (hb : 0 < b) :
    ((a <<< (52 - e).toNat : ℕ) : ℚ) / ((b <<< (e - 52).toNat : ℕ) : ℚ) =
      (a : ℚ) / b * (2 : ℚ) ^ ((52 : ℤ) - e) := by
  rw [Nat.shiftLeft_eq, Nat.shiftLeft_eq]
  push_cast
  rw [zpow_toNat_div ((52 : ℤ) - e)]
  have h1 : (-((52 : ℤ) - e)).toNat = (e - 52).toNat := by omega
  rw [h1]
  have hbq : (b : ℚ) ≠ 0 := by positivity
  have hp1 : ((2 : ℚ) ^ ((52 : ℤ) - e).toNat) ≠ 0 := by positivity
  have hp2 : ((2 : ℚ) ^ ((e : ℤ) - 52).toNat) ≠ 0 := by positivity
  field_simp

/-- Helper: the exponent of `eps` as an integer power of two. -/
theorem zpow_neg53_eq_eps : (2 : ℚ) ^ (-53 : ℤ) = eps := by
  rw [eps, show (-53 : ℤ) = -(53 : ℕ) by norm_num, zpow_neg, zpow_natCast, one_div]

/-- Helper: one binary64 rounding has relative error at most `eps` on a
positive fraction. -/
theorem rnVal_bounds (a b : Nat) (ha : 0 < a) (hb : 0 < b) :
    (a : ℚ) / b * (1 - eps) ≤ rnVal a b ∧ rnVal a b ≤ (a : ℚ) / b * (1 + eps) := by
  obtain ⟨hfl, hfu⟩ := floorLog2_bounds a b ha hb
  have hbq : (0 : ℚ) < b := by exact_mod_cast hb
  have habq : (0 : ℚ) < (a : ℚ) / b := by positivity
  have hden : 0 < b <<< (floorLog2 a b - 52).toNat := by
    rw [Nat.shiftLeft_eq]
    positivity
  obtain ⟨hc1, hc2⟩ := rne_close (a <<< (52 - floorLog2 a b).toNat)
    (b <<< (floorLog2 a b - 52).toNat) hden
  rw [rn_num_den_val a b (floorLog2 a b) hb] at hc1 hc2
  have hrv : rnVal a b = ((rne (a <<< (52 - floorLog2 a b).toNat)
      (b <<< (floorLog2 a b - 52).toNat) : ℕ) : ℚ) *
      (2 : ℚ) ^ (floorLog2 a b - 52) := rfl
  set e := floorLog2 a b with he
  set R : ℚ := ((rne (a <<< (52 - e).toNat) (b <<< (e - 52).toNat) : ℕ) : ℚ) with hRdef
  set X : ℚ := (a : ℚ) / b * (2 : ℚ) ^ ((52 : ℤ) - e) with hXdef
  set P : ℚ := (2 : ℚ) ^ (e - 52) with hPdef
  have hp : (0 : ℚ) < P := by
    rw [hPdef]
    exact zpow_pos (by norm_num) _
  have hcancel : X * P = (a : ℚ) / b := by
    rw [hXdef, hPdef, mul_assoc, ← zpow_add₀ (by norm_num : (2 : ℚ) ≠ 0)]
    norm_num
  have hhalf : (1 / 2 : ℚ) * P = (2 : ℚ) ^ (e - 53) := by
    rw [hPdef, show (1 / 2 : ℚ) = (2 : ℚ) ^ (-1 : ℤ) by norm_num,
        ← zpow_add₀ (by norm_num : (2 : ℚ) ≠ 0)]
    ring_nf
  have hulp : (2 : ℚ) ^ (e - 53) ≤ (a : ℚ) / b * eps := by
    have h1 : (2 : ℚ) ^ e ≤ (a : ℚ) / b := by
      rw [le_div_iff₀ hbq]
      exact hfl
    have h2 : (2 : ℚ) ^ (e - 53) = (2 : ℚ) ^ e * (2 : ℚ) ^ (-53 : ℤ) := by
      rw [← zpow_add₀ (by norm_num : (2 : ℚ) ≠ 0)]
      ring_nf
    have heps : (0 : ℚ) < eps := by rw [eps]; norm_num
    rw [h2, zpow_neg53_eq_eps]
    nlinarith
  rw [hrv]
  constructor
  · have key : (X - 1 / 2) * P ≤ R * P := mul_le_mul_of_nonneg_right hc1 hp.le
    have expand : (X - 1 / 2) * P = X * P - 1 / 2 * P := by ring
    rw [expand, hcancel, hhalf] at key
    nlinarith
  · have key : R * P ≤ (X + 1 / 2) * P := mul_le_mul_of_nonneg_right hc2 hp.le
    have expand : (X + 1 / 2) * P = X * P + 1 / 2 * P := by ring
    rw [expand, hcancel, hhalf] at key
    nlinarith

/-- Helper: the rounded significand of a positive fraction is positive. -/
theorem rnPair_fst_pos (a b : Nat) (ha : 0 < a) (hb : 0 < b) :
    0 < (rnPair a b).1 := by
  by_contra hcon
  have h0 : (rnPair a b).1 = 0 := by omega
  have hv := (rnVal_bounds a b ha hb).1
  rw [rnVal, h0] at hv
  have habq : (0 : ℚ) < (a : ℚ) / b := by
    have hbq : (0 : ℚ) < b := by exact_mod_cast hb
    have haq : (0 : ℚ) < a := by exact_mod_cast ha
    positivity
  have heps : eps < 1 := by rw [eps]; norm_num
  simp at hv
  nlinarith

/-- Helper: Python truncation of a positive binary64 value is its floor:
the truncated natural brackets the exact value from below within one. -/
theorem pyTrunc_bounds (n : Nat) (e : Int) :
    (pyTrunc n e : ℚ) ≤ (n : ℚ) * (2 : ℚ) ^ (e - 52) ∧
    (n : ℚ) * (2 : ℚ) ^ (e - 52) < pyTrunc n e + 1 := by
  unfold pyTrunc
  rw [Nat.shiftRight_eq_div_pow, Nat.shiftLeft_eq]
  have hD : 0 < 2 ^ (52 - e).toNat := Nat.pos_pow_of_pos _ (by norm_num)
  have hDq : (0 : ℚ) < ((2 ^ (52 - e).toNat : ℕ) : ℚ) := by exact_mod_cast hD
  have hval : ((n * 2 ^ (e - 52).toNat : ℕ) : ℚ) / ((2 ^ (52 - e).toNat : ℕ) : ℚ) =
      (n : ℚ) * (2 : ℚ) ^ (e - 52) := by
    push_cast
    rw [zpow_toNat_div (e - 52)]
    have h1 : (-(e - 52)).toNat = (52 - e).toNat := by omega
    rw [h1]
    ring
  set A := n * 2 ^ (e - 52).toNat with hA
  set D := 2 ^ (52 - e).toNat with hD2
  have hmod := Nat.div_add_mod A D
  have hm : A % D < D := Nat.mod_lt A hD
  rw [← hval]
  constructor
  · rw [le_div_iff₀ hDq]
    have : (A / D) * D ≤ A := Nat.div_mul_le_self A D
    exact_mod_cast this
  · rw [div_lt_iff₀ hDq]
    have : A < (A / D + 1) * D := by
      have h1 := Nat.div_add_mod A D
      have h2 : A % D < D := Nat.mod_lt A hD
      calc A = D * (A / D) + A % D := h1.symm
        _ < D * (A / D) + D := Nat.add_lt_add_left h2 _
        _ = (A / D + 1) * D := by ring
    exact_mod_cast this

set_option maxHeartbeats 1600000 in
/-- Helper: the binary64 value actually truncated by `scaledSide` lies
within `1 / m` of the exactly scaled side, and the truncation is its
floor. -/
theorem scaledSide_val_bounds (side m : Nat) (hside : 0 < side)
    (hsm : side ≤ m) (hm1 : 1200 < m) (hm2 : m ≤ 5000) :
    ∃ t : ℚ, (scaledSide side m : ℚ) ≤ t ∧ t < (scaledSide side m : ℚ) + 1 ∧
      (side : ℚ) * 1200 / m - 1 / m < t ∧ t < (side : ℚ) * 1200 / m + 1 / m := by
  have hm0 : 0 < m := by omega
  have hmq : (0 : ℚ) < m := by exact_mod_cast hm0
  have hsq : (0 : ℚ) < side := by exact_mod_cast hside
  have heps0 : (0 : ℚ) < eps := by rw [eps]; norm_num
  have heps1 : (0 : ℚ) < 1 - eps := by rw [eps]; norm_num
  obtain ⟨hs1, hs2⟩ := rnVal_bounds 1200 m (by norm_num) hm0
  have hspos : 0 < (rnPair 1200 m).1 := rnPair_fst_pos 1200 m (by norm_num) hm0
  have ha2 : 0 < (side * (rnPair 1200 m).1) <<< ((rnPair 1200 m).2 - 52).toNat := by
    rw [Nat.shiftLeft_eq]
    positivity
  have hb2 : 0 < (1 : ℕ) <<< (52 - (rnPair 1200 m).2).toNat := by
    rw [Nat.shiftLeft_eq]
    positivity
  obtain ⟨ht1, ht2⟩ := rnVal_bounds _ _ ha2 hb2
  have hval : (((side * (rnPair 1200 m).1) <<< ((rnPair 1200 m).2 - 52).toNat : ℕ) : ℚ) /
      (((1 : ℕ) <<< (52 - (rnPair 1200 m).2).toNat : ℕ) : ℚ) =
      (side : ℚ) * rnVal 1200 m := by
    rw [Nat.shiftLeft_eq, Nat.shiftLeft_eq]
    push_cast
    rw [rnVal, zpow_toNat_div ((rnPair 1200 m).2 - 52)]
    have h1 : (-((rnPair 1200 m).2 - 52)).toNat = (52 - (rnPair 1200 m).2).toNat := by
      omega
    rw [h1]
    have hp2 : ((2 : ℚ) ^ ((52 : ℤ) - (rnPair 1200 m).2).toNat) ≠ 0 := by positivity
    field_simp
    ring
  rw [hval] at ht1 ht2
  refine ⟨rnVal ((side * (rnPair 1200 m).1) <<< ((rnPair 1200 m).2 - 52).toNat)
      ((1 : ℕ) <<< (52 - (rnPair 1200 m).2).toNat), ?_, ?_, ?_, ?_⟩
  · have hPT := (pyTrunc_bounds
      (rnPair ((side * (rnPair 1200 m).1) <<< ((rnPair 1200 m).2 - 52).toNat)
        ((1 : ℕ) <<< (52 - (rnPair 1200 m).2).toNat)).1
      (rnPair ((side * (rnPair 1200 m).1) <<< ((rnPair 1200 m).2 - 52).toNat)
        ((1 : ℕ) <<< (52 - (rnPair 1200 m).2).toNat)).2).1
    exact hPT
  · have hPT := (pyTrunc_bounds
      (rnPair ((side * (rnPair 1200 m).1) <<< ((rnPair 1200 m).2 - 52).toNat)
        ((1 : ℕ) <<< (52 - (rnPair 1200 m).2).toNat)).1
      (rnPair ((side * (rnPair 1200 m).1) <<< ((rnPair 1200 m).2 - 52).toNat)
        ((1 : ℕ) <<< (52 - (rnPair 1200 m).2).toNat)).2).2
    exact hPT
  · -- lower error bound
    have hE1200 : (side : ℚ) * 1200 / m ≤ 1200 := by
      rw [div_le_iff₀ hmq]
      have : (side : ℚ) ≤ m := by exact_mod_cast hsm
      nlinarith
    have hEpos : (0 : ℚ) < (side : ℚ) * 1200 / m := by positivity
    have hbudget : (1200 : ℚ) * (2 * eps + eps ^ 2) < 1 / 5000 := by
      rw [eps]
      norm_num
    have h5000 : (1 : ℚ) / 5000 ≤ 1 / m := by
      apply one_div_le_one_div_of_le hmq
      exact_mod_cast hm2
    have hsv : (1200 : ℚ) / m * (1 - eps) ≤ rnVal 1200 m := by
      have : ((1200 : ℕ) : ℚ) = (1200 : ℚ) := by norm_num
      rw [this] at hs1
      exact hs1
    have hlow : (side : ℚ) * 1200 / m * (1 - eps) ≤ (side : ℚ) * rnVal 1200 m := by
      have := mul_le_mul_of_nonneg_left hsv hsq.le
      calc (side : ℚ) * 1200 / m * (1 - eps)
          = (side : ℚ) * ((1200 : ℚ) / m * (1 - eps)) := by ring
        _ ≤ (side : ℚ) * rnVal 1200 m := this
    have hchain : (side : ℚ) * 1200 / m * (1 - eps) * (1 - eps) ≤
        rnVal ((side * (rnPair 1200 m).1) <<< ((rnPair 1200 m).2 - 52).toNat)
          ((1 : ℕ) <<< (52 - (rnPair 1200 m).2).toNat) := by
      have := mul_le_mul_of_nonneg_right hlow heps1.le
      linarith
    have hfinal : (side : ℚ) * 1200 / m - 1 / m <
        (side : ℚ) * 1200 / m * (1 - eps) * (1 - eps) := by
      have hexp : (side : ℚ) * 1200 / m * (1 - eps) * (1 - eps) =
          (side : ℚ) * 1200 / m - (side : ℚ) * 1200 / m * (2 * eps - eps ^ 2) := by
        ring
      rw [hexp]
      have h1 : (side : ℚ) * 1200 / m * (2 * eps - eps ^ 2) ≤
          1200 * (2 * eps + eps ^ 2) := by
        nlinarith
      linarith
    linarith
  · -- upper error bound
    have hE1200 : (side : ℚ) * 1200 / m ≤ 1200 := by
      rw [div_le_iff₀ hmq]
      have : (side : ℚ) ≤ m := by exact_mod_cast hsm
      nlinarith
    have hEpos : (0 : ℚ) < (side : ℚ) * 1200 / m := by positivity
    have hbudget : (1200 : ℚ) * (2 * eps + eps ^ 2) < 1 / 5000 := by
      rw [eps]
      norm_num
    have h5000 : (1 : ℚ) / 5000 ≤ 1 / m := by
      apply one_div_le_one_div_of_le hmq
      exact_mod_cast hm2
    have hsv : rnVal 1200 m ≤ (1200 : ℚ) / m * (1 + eps) := by
      have : ((1200 : ℕ) : ℚ) = (1200 : ℚ) := by norm_num
      rw [this] at hs2
      exact hs2
    have hrnpos : 0 ≤ (side : ℚ) * rnVal 1200 m := by
      have h1 : (0:ℚ) < (1200 : ℚ) / m * (1 - eps) := by positivity
      have : ((1200 : ℕ) : ℚ) = (1200 : ℚ) := by norm_num
      rw [this] at hs1
      nlinarith
    have hhigh : (side : ℚ) * rnVal 1200 m ≤ (side : ℚ) * 1200 / m * (1 + eps) := by
      have := mul_le_mul_of_nonneg_left hsv hsq.le
      calc (side : ℚ) * rnVal 1200 m
          ≤ (side : ℚ) * ((1200 : ℚ) / m * (1 + eps)) := this
        _ = (side : ℚ) * 1200 / m * (1 + eps) := by ring
    have hchain : rnVal ((side * (rnPair 1200 m).1) <<< ((rnPair 1200 m).2 - 52).toNat)
          ((1 : ℕ) <<< (52 - (rnPair 1200 m).2).toNat) ≤
        (side : ℚ) * 1200 / m * (1 + eps) * (1 + eps) := by
      have hstep := mul_le_mul_of_nonneg_right hhigh (by linarith : (0:ℚ) ≤ 1 + eps)
      have hstep2 : (side : ℚ) * rnVal 1200 m * (1 + eps) ≤
          (side : ℚ) * 1200 / m * (1 + eps) * (1 + eps) := hstep
      linarith
    have hfinal : (side : ℚ) * 1200 / m * (1 + eps) * (1 + eps) <
        (side : ℚ) * 1200 / m + 1 / m := by
      have hexp : (side : ℚ) * 1200 / m * (1 + eps) * (1 + eps) =
          (side : ℚ) * 1200 / m + (side : ℚ) * 1200 / m * (2 * eps + eps ^ 2) := by
        ring
      rw [hexp]
      have h1 : (side : ℚ) * 1200 / m * (2 * eps + eps ^ 2) ≤
          1200 * (2 * eps + eps ^ 2) := by
        nlinarith
      linarith
    linarith

/-- Helper: each downsampled side equals the exactly scaled value rounded
down, or falls exactly one pixel short of it. -/
theorem scaledSide_bounds (side m : Nat) (hside : 0 < side) (hsm : side ≤ m)
    (hm1 : 1200 < m) (hm2 : m ≤ 5000) :
    side * 1200 / m - 1 ≤ scaledSide side m ∧ scaledSide side m ≤ side * 1200 / m := by
  have hm0 : 0 < m := by omega
  have hmq : (0 : ℚ) < m := by exact_mod_cast hm0
  obtain ⟨t, h1, h2, h3, h4⟩ := scaledSide_val_bounds side m hside hsm hm1 hm2
  have hNR := Nat.div_add_mod (side * 1200) m
  have hRm : side * 1200 % m < m := Nat.mod_lt _ hm0
  have hc : ((side : ℚ) * 1200) =
      (m : ℚ) * ((side * 1200 / m : ℕ) : ℚ) + ((side * 1200 % m : ℕ) : ℚ) := by
    exact_mod_cast hNR.symm
  have hEeq : (side : ℚ) * 1200 / m =
      ((side * 1200 / m : ℕ) : ℚ) + ((side * 1200 % m : ℕ) : ℚ) / m := by
    field_simp
    linarith
  have hR0 : (0 : ℚ) ≤ ((side * 1200 % m : ℕ) : ℚ) := by positivity
  have hR1 : ((side * 1200 % m : ℕ) : ℚ) + 1 ≤ m := by
    exact_mod_cast hRm
  constructor
  · -- lower: the output falls at most one below the exact floor
    have hlo : ((side * 1200 / m : ℕ) : ℚ) - 1 / m < (scaledSide side m : ℚ) + 1 := by
      have hNleE : ((side * 1200 / m : ℕ) : ℚ) ≤ (side : ℚ) * 1200 / m := by
        rw [hEeq]
        have hRdiv : (0 : ℚ) ≤ ((side * 1200 % m : ℕ) : ℚ) / m := by positivity
        linarith
      calc ((side * 1200 / m : ℕ) : ℚ) - 1 / m
          ≤ (side : ℚ) * 1200 / m - 1 / m := by linarith
        _ < t := h3
        _ < (scaledSide side m : ℚ) + 1 := h2
    have hmge1 : (1 : ℚ) / m ≤ 1 := by
      rw [div_le_one hmq]
      exact_mod_cast hm0
    have hlt : ((side * 1200 / m : ℕ) : ℚ) < (scaledSide side m : ℚ) + 2 := by
      linarith
    have hnat : side * 1200 / m < scaledSide side m + 2 := by
      exact_mod_cast hlt
    omega
  · -- upper: the output never exceeds the exact floor
    have hup : (scaledSide side m : ℚ) < ((side * 1200 / m : ℕ) : ℚ) + 1 := by
      have hsum : ((side * 1200 % m : ℕ) : ℚ) / m + 1 / m ≤ 1 := by
        rw [div_add_div_same, div_le_one hmq]
        linarith
      calc (scaledSide side m : ℚ) ≤ t := h1
        _ < (side : ℚ) * 1200 / m + 1 / m := h4
        _ = ((side * 1200 / m : ℕ) : ℚ) +
            (((side * 1200 % m : ℕ) : ℚ) / m + 1 / m) := by
            rw [hEeq]
            ring
        _ ≤ ((side * 1200 / m : ℕ) : ℚ) + 1 := by linarith
    have hnat : scaledSide side m < side * 1200 / m + 1 := by
      exact_mod_cast hup
    omega

/-- C8 counterexample: a 2191 by 100 image passes validation and exceeds
the cap, yet the program truncates the longer side to 1199, not 1200: the
binary64 scale factor falls just below the exact `1200 / 2191`, and 2191
times it truncates to 1199. -/
theorem downsample_longer_side_not_capped_cex :
    1200 < max 2191 100 ∧
    scaledDims 2191 100 = (1199, 54) ∧
    max (scaledDims 2191 100).1 (scaledDims 2191 100).2 ≠ 1200 := by
  refine ⟨by decide, by decide, by decide⟩

/-- C8 (amended): when the longer side exceeds the cap 1200, both
dimensions are scaled by the binary64 factor `1200 / max(w,h)` and
truncated: each output side equals the exactly scaled value rounded down or
falls exactly one pixel short of it, so the aspect ratio is preserved to
within one pixel of rounding; the longer output side is 1199 or 1200, not
always exactly 1200. The bound 5000 is the validation cap every pixmap
passes before reaching `optimize_image`. -/
theorem downsample_within_one_pixel (w h : Nat) (hw : 0 < w) (hh : 0 < h)
    (hgt : 1200 < max w h) (hle : max w h ≤ 5000) :
    w * 1200 / max w h - 1 ≤ (scaledDims w h).1 ∧
    (scaledDims w h).1 ≤ w * 1200 / max w h ∧
    h * 1200 / max w h - 1 ≤ (scaledDims w h).2 ∧
    (scaledDims w h).2 ≤ h * 1200 / max w h ∧
    1199 ≤ max (scaledDims w h).1 (scaledDims w h).2 ∧
    max (scaledDims w h).1 (scaledDims w h).2 ≤ 1200 := by
  have h0 : 0 < max w h := by omega
  have hsc : scaledDims w h = (scaledSide w (max w h), scaledSide h (max w h)) := by
    unfold scaledDims
    simp [hgt]
  have hwb := scaledSide_bounds w (max w h) hw (le_max_left w h) hgt hle
  have hhb := scaledSide_bounds h (max w h) hh (le_max_right w h) hgt hle
  have hw1200 : w * 1200 / max w h ≤ 1200 := by
    have hstep : w * 1200 ≤ max w h * 1200 :=
      Nat.mul_le_mul_right 1200 (le_max_left w h)
    have hdd : w * 1200 / max w h ≤ max w h * 1200 / max w h :=
      Nat.div_le_div_right hstep
    rwa [Nat.mul_div_cancel_left 1200 h0] at hdd
  have hh1200 : h * 1200 / max w h ≤ 1200 := by
    have hstep : h * 1200 ≤ max w h * 1200 :=
      Nat.mul_le_mul_right 1200 (le_max_right w h)
    have hdd : h * 1200 / max w h ≤ max w h * 1200 / max w h :=
      Nat.div_le_div_right hstep
    rwa [Nat.mul_div_cancel_left 1200 h0] at hdd
  rw [hsc]
  refine ⟨hwb.1, hwb.2, hhb.1, hhb.2, ?_, ?_⟩
  · rcases max_choice w h with hmax | hmax
    · have hN : w * 1200 / max w h = 1200 := by
        rw [hmax]
        exact Nat.mul_div_cancel_left 1200 (hmax ▸ h0)
      have h1 := hwb.1
      rw [hN] at h1
      have h1199 : 1199 ≤ scaledSide w (max w h) := by omega
      exact le_trans h1199 (le_max_left _ _)
    · have hN : h * 1200 / max w h = 1200 := by
        rw [hmax]
        exact Nat.mul_div_cancel_left 1200 (hmax ▸ h0)
      have h1 := hhb.1
      rw [hN] at h1
      have h1199 : 1199 ≤ scaledSide h (max w h) := by omega
      exact le_trans h1199 (le_max_right _ _)
  · exact max_le (le_trans hwb.2 hw1200) (le_trans hhb.2 hh1200)

/-- C8 witness: the 3000 by 2000 image of scenario C scales to exactly
1200 by 800 even in binary64 arithmetic, and the amended theorem
instantiates there. -/
theorem downsample_within_one_pixel_witness :
    scaledDims 3000 2000 = (1200, 800) ∧
    1199 ≤ max (scaledDims 3000 2000).1 (scaledDims 3000 2000).2 ∧
    max (scaledDims 3000 2000).1 (scaledDims 3000 2000).2 ≤ 1200 := by
  have h := downsample_within_one_pixel 3000 2000 (by decide) (by decide)
    (by decide) (by decide)
  exact ⟨by decide, h.2.2.2.2.1, h.2.2.2.2.2⟩
